import Mathlib

/-!
Verification of the batch-anchoring core of the Snow-Frost consent tracker.

Embedded components:

* `MerkleTree` — the binary Merkle tree library of `src/lib/merkleTree.js`:
  `buildTree`, `generateProof`, `verifyProof`.  The tree is embedded
  generically over a linearly ordered type `α` of hash strings; the pair
  hash (`keccak256Pair` in the source, an external primitive) and the
  `toLowerCase` normalisation are abstract parameters `hp : α → α → α` and
  `norm : α → α`.  JavaScript's default `Array.prototype.sort` on strings
  sorts ascending by code units; it is modelled by `List.insertionSort`
  with the order of `α` (for the `String` instantiation this is the
  lexicographic order, which agrees with the code-unit order on the ASCII
  hex strings the library handles).  The source's `while` loop over levels
  is rendered as structural recursion on a fuel argument initialised to
  the length of level 0, which strictly bounds the number of iterations
  (each level at least halves until length 1).

* `BlockchainService` — the batching service of `src/blockchain.js` and
  the background worker (`checkDayChange`, `anchorDailyBatch`).  State is
  explicit (`ServiceState`); the chain adapter (`anchorBatchOnChain`) is
  modelled both concretely (with its wallet / failure / randomness
  environment as an explicit `ChainEnv` input) and as an abstract
  `Adapter` parameter where a claim quantifies over adapter outcomes.
  `crypto.subtle.digest('SHA-256', encode(s))` is an external primitive
  and is abstracted as `sha : String → List Nat` (bytes of the digest).
-/

namespace MerkleTree

variable {α : Type} [LinearOrder α] [Inhabited α]

/-- Source `buildTree` lines 40-42 / `verifyProof` lines 114-118: order the
pair lower value first, then apply the pair hash `hp` (`keccak256Pair`). -/
def combinePair (hp : α → α → α) (a b : α) : α :=
  if a ≤ b then hp a b else hp b a

/-- Source `buildTree` lines 36-44: one pass of the level loop.  Adjacent
nodes are paired; a trailing odd node is paired with itself
(`currentLevel[i + 1] || left`). -/
def buildLevelUp (hp : α → α → α) : List α → List α
  | [] => []
  | [a] => [combinePair hp a a]
  | a :: b :: rest => combinePair hp a b :: buildLevelUp hp rest

/-- Source `buildTree` lines 33-48: the `while (currentLevel.length > 1)`
loop collecting the levels bottom-up.  The loop is rendered with a fuel
argument; callers pass the length of the starting level, which bounds the
iteration count, so the fuel-exhausted arm is never reached. -/
def buildLevels (hp : α → α → α) : Nat → List α → List (List α)
  | 0, cur => [cur]
  | fuel + 1, cur =>
      if cur.length > 1 then cur :: buildLevels hp fuel (buildLevelUp hp cur)
      else [cur]

/-- Result shape of `buildTree`: `{ levels, root, leafCount }`.  The empty
input returns `{ levels: [], root: null }` (modelled with `leafCount 0`). -/
structure Tree (α : Type) where
  levels : List (List α)
  root : Option α
  leafCount : Nat
deriving DecidableEq

/-- Source `buildTree` lines 21-55.  Leaves are lowercased (`norm`) and
sorted before the tree is built; the root is element 0 of the final level. -/
def buildTree (norm : α → α) (hp : α → α → α) (leaves : List α) : Tree α :=
  match leaves with
  | [] => ⟨[], none, 0⟩
  | _ =>
      let level0 := (leaves.map norm).insertionSort (· ≤ ·)
      let levels := buildLevels hp level0.length level0
      ⟨levels, levels.getLast?.bind List.head?, leaves.length⟩

/-- Result shape of `generateProof`; a missing leaf yields
`{ valid: false, proof: [], leafIndex: -1 }`. -/
structure ProofResult (α : Type) where
  valid : Bool
  proof : List α
  leafIndex : Int
  root : Option α
deriving DecidableEq

/-- JavaScript `Array.prototype.indexOf`: first index of an element, with
`-1` (here `none`) when absent. -/
def jsIndexOf [DecidableEq α] (a : α) : List α → Option Nat
  | [] => none
  | b :: t => if b = a then some 0 else (jsIndexOf a t).map (· + 1)

/-- Source `generateProof` lines 77-91: walk all levels but the last,
recording at each level the sibling (`index ± 1` by parity), or the node
itself when the sibling index falls off the end of an odd level, then move
to the parent index `index / 2`. -/
def genProofAux : List (List α) → Nat → List α
  | [], _ => []
  | [_], _ => []
  | cur :: next :: more, index =>
      let sibIdx := if index % 2 = 1 then index - 1 else index + 1
      let e := if sibIdx < cur.length then cur.getD sibIdx default
               else cur.getD index default
      e :: genProofAux (next :: more) (index / 2)

/-- Source `generateProof` lines 63-99. -/
def generateProof [DecidableEq α] (norm : α → α) (tree : Tree α) (leaf : α) :
    ProofResult α :=
  match tree.levels with
  | [] => ⟨false, [], -1, none⟩
  | l0 :: _ =>
      match jsIndexOf (norm leaf) l0 with
      | none => ⟨false, [], -1, none⟩
      | some i => ⟨true, genProofAux tree.levels i, (i : Int), tree.root⟩

/-- Source `verifyProof` lines 108-122: fold the proof elements over the
running hash, combining lower value first, and compare with the root
(all values lowercased via `norm`). -/
def verifyProof [DecidableEq α] (norm : α → α) (hp : α → α → α) (root leaf : α)
    (proof : List α) : Bool :=
  decide ((proof.foldl (fun c e => combinePair hp c (norm e)) (norm leaf)) = norm root)

end MerkleTree

namespace BlockchainService

/-- JavaScript `s.toLowerCase()` on the ASCII hash strings the service
handles (character-wise lowering of the underlying character list). -/
def strLower (s : String) : String := String.mk (s.data.map Char.toLower)

/-- JavaScript `v || d` for an optional string field: `null`/`undefined`
and the empty string are falsy. -/
def jsOrString (v : Option String) (d : String) : String :=
  match v with
  | none => d
  | some s => if s = "" then d else s

/-- JavaScript truthiness of an optional string (e.g.
`this.config.contractAddress`). -/
def jsTruthyStr : Option String → Bool
  | none => false
  | some s => s != ""

/-- JavaScript truthiness of an optional number (e.g.
`this.pendingBatch.dayTimestamp`): `null` and `0` are falsy. -/
def jsTruthyNat : Option Nat → Bool
  | none => false
  | some n => n != 0

/-- JavaScript `b.toString(16).padStart(2, '0')` for one digest byte. -/
def byteToHex (b : Nat) : String :=
  let s := String.mk (Nat.toDigits 16 b)
  String.mk (List.replicate (2 - s.length) '0') ++ s

/-- Source `generateConsentHash` lines 93-94: digest bytes to a lowercase
hex string (`map(...).join('')`). -/
def bytesToHex (bs : List Nat) : String :=
  String.join (bs.map byteToHex)

/-- Input consent event; optional fields model absent properties. -/
structure ConsentData where
  context : Option String
  url : Option String
  timestamp : Nat
  buttonText : Option String
  category : Option String
deriving DecidableEq

/-- Source `generateConsentHash` lines 78-97: join the five fields with
`|` (missing text fields default to the empty string, a missing category
to `'general'`), digest (`sha`, the external SHA-256 primitive on the
encoded string), and return the 0x-prefixed lowercase hex. -/
def generateConsentHash (sha : String → List Nat) (c : ConsentData) : String :=
  let proofString := String.intercalate "|"
    [jsOrString c.context "", jsOrString c.url "", toString c.timestamp,
     jsOrString c.buttonText "", jsOrString c.category "general"]
  "0x" ++ bytesToHex (sha proofString)

/-- Modelled from the claim of C5 (spec section 3): leaf hash with `|` as
separator and the empty string substituted for every missing field,
including the category.  Used only to compare with the source behaviour. -/
def claimLeafHashEmptyMissing (sha : String → List Nat) (c : ConsentData) : String :=
  "0x" ++ bytesToHex (sha (jsOrString c.context "" ++ "|" ++ jsOrString c.url ""
    ++ "|" ++ toString c.timestamp ++ "|" ++ jsOrString c.buttonText ""
    ++ "|" ++ jsOrString c.category ""))

/-- The claim of C5 amended to match the source: the category field
defaults to the literal `general`, the other text fields to the empty
string.  Written following the spec's concatenation formula. -/
def specLeafHash (sha : String → List Nat) (c : ConsentData) : String :=
  "0x" ++ bytesToHex (sha (jsOrString c.context "" ++ "|" ++ jsOrString c.url ""
    ++ "|" ++ toString c.timestamp ++ "|" ++ jsOrString c.buttonText ""
    ++ "|" ++ jsOrString c.category "general"))

/-- Source `getDayTimestamp` lines 66-70: start of UTC day in epoch
seconds (`setUTCHours(0,0,0,0)` then `getTime() / 1000`). -/
def getDayTimestamp (nowMs : Nat) : Nat :=
  nowMs / 86400000 * 86400

/-- One entry of the pending batch (`{ hash, data, addedAt }`). -/
structure ConsentEntry where
  hash : String
  data : ConsentData
  addedAt : Nat
deriving DecidableEq

/-- The pending daily batch. -/
structure PendingBatch where
  consents : List ConsentEntry
  dayTimestamp : Option Nat
deriving DecidableEq

/-- Result of an anchoring call (`anchorOnRealChain` /
`anchorOnSimulatedChain`); `blockNumber` is `none` for the real chain's
string `'pending'`. -/
structure ChainResult where
  success : Bool
  txHash : String
  blockNumber : Option Nat
  network : String
  timestamp : Nat
  simulated : Bool
deriving DecidableEq

/-- One record of the simulated chain (`batchData` in
`anchorOnSimulatedChain`). -/
structure SimBatchData where
  merkleRoot : String
  storagePointer : String
  dayTimestamp : Option Nat
  batchSize : Nat
  txHash : String
  blockNumber : Nat
  timestamp : Nat
  network : String
  simulated : Bool
deriving DecidableEq

/-- The simulated blockchain (`this.simulatedChain`). -/
structure SimChain where
  batches : List SimBatchData
  currentBlock : Nat
deriving DecidableEq

/-- The service configuration fields the claims depend on. -/
structure Config where
  networkName : String
  simulatedMode : Bool
  contractAddress : Option String
deriving DecidableEq

/-- An anchored batch (`anchoredBatch` in `anchorPendingBatch`). -/
structure AnchoredBatch where
  merkleRoot : String
  storagePointer : String
  dayTimestamp : Option Nat
  tree : MerkleTree.Tree String
  consents : List ConsentEntry
  anchoredAt : Nat
  txHash : String
  blockNumber : Option Nat
  network : String
  simulated : Bool
deriving DecidableEq

/-- The mutable state of `BlockchainService`. -/
structure ServiceState where
  config : Config
  pendingBatch : PendingBatch
  anchoredBatches : List AnchoredBatch
  simulatedChain : SimChain
deriving DecidableEq

/-- External inputs of one anchoring call: wallet availability
(`checkWalletAvailable`), whether the real-chain path throws, the real
transaction hash, the random hex of `generateRandomHash`, and the clock. -/
structure ChainEnv where
  walletAvailable : Bool
  realChainFails : Bool
  realTxHash : String
  randHex : String
  nowMs : Nat
deriving DecidableEq

/-- Source `anchorOnSimulatedChain` lines 260-296: mint a synthetic
receipt, append to the simulated chain, always succeed. -/
def anchorOnSimulatedChain (env : ChainEnv) (sim : SimChain)
    (merkleRoot storagePointer : String) (day : Option Nat)
    (batchSize : Nat) : SimChain × ChainResult :=
  let txHash := "0x" ++ env.randHex
  let blockNumber := sim.currentBlock
  let bd : SimBatchData :=
    ⟨merkleRoot, storagePointer, day, batchSize, txHash, blockNumber,
     env.nowMs, "Simulated (Demo Mode)", true⟩
  (⟨sim.batches ++ [bd], sim.currentBlock + 1⟩,
   ⟨true, txHash, some blockNumber, "Simulated (Demo Mode)", env.nowMs, true⟩)

/-- Source `anchorBatchOnChain` lines 201-214: use the real chain only
when a wallet is present, simulated mode is off and a contract address is
set; any real-chain error is caught and falls through to the simulated
chain. -/
def anchorBatchOnChain (env : ChainEnv) (cfg : Config) (sim : SimChain)
    (merkleRoot storagePointer : String) (day : Option Nat)
    (batchSize : Nat) : SimChain × ChainResult :=
  if env.walletAvailable && !cfg.simulatedMode && jsTruthyStr cfg.contractAddress then
    if env.realChainFails then
      anchorOnSimulatedChain env sim merkleRoot storagePointer day batchSize
    else
      (sim, ⟨true, env.realTxHash, none, cfg.networkName, env.nowMs, false⟩)
  else
    anchorOnSimulatedChain env sim merkleRoot storagePointer day batchSize

/-- The shape of the chain-adapter commit step
(`anchorBatchOnChain`), abstracted so claims can condition on its
outcome. -/
abbrev Adapter :=
  SimChain → String → String → Option Nat → Nat → SimChain × ChainResult

/-- Source `anchorPendingBatch` lines 148-196: no-op on an empty pending
batch; otherwise build the tree over the pending leaves, commit via the
adapter, and only on success move the batch (with its receipt) to the
anchored list and clear the pending batch.  `spHash` abstracts the
storage-pointer hash of the serialised batch (`hashString(batchData)`). -/
def anchorPendingBatch (hp : String → String → String)
    (spHash : PendingBatch → String) (adapter : Adapter) (nowMs : Nat)
    (st : ServiceState) : ServiceState × Option ChainResult :=
  if st.pendingBatch.consents.length = 0 then (st, none)
  else
    let leaves := st.pendingBatch.consents.map ConsentEntry.hash
    let tree := MerkleTree.buildTree strLower hp leaves
    let merkleRoot := tree.root.getD ""
    let storagePointer := spHash st.pendingBatch
    let step := adapter st.simulatedChain merkleRoot storagePointer
      st.pendingBatch.dayTimestamp st.pendingBatch.consents.length
    let sim2 := step.1
    let result := step.2
    if result.success then
      let ab : AnchoredBatch :=
        ⟨merkleRoot, storagePointer, st.pendingBatch.dayTimestamp, tree,
         st.pendingBatch.consents, nowMs, result.txHash, result.blockNumber,
         result.network, result.simulated⟩
      ({ st with simulatedChain := sim2,
                 anchoredBatches := st.anchoredBatches ++ [ab],
                 pendingBatch := ⟨[], none⟩ }, some result)
    else
      ({ st with simulatedChain := sim2 }, some result)

/-- Source `addConsentToBatch` lines 104-130: on a truthy `dayTimestamp`
different from the current UTC day, first auto-anchor the pending batch;
then hash the consent, append it, and stamp the batch with the current
day.  Returns the leaf hash. -/
def addConsentToBatch (sha : String → List Nat) (hp : String → String → String)
    (spHash : PendingBatch → String) (adapter : Adapter) (nowMs : Nat)
    (st : ServiceState) (c : ConsentData) : ServiceState × String :=
  let currentDay := getDayTimestamp nowMs
  let st1 :=
    if jsTruthyNat st.pendingBatch.dayTimestamp
        && st.pendingBatch.dayTimestamp != some currentDay then
      (anchorPendingBatch hp spHash adapter nowMs st).1
    else st
  let consentHash := generateConsentHash sha c
  let entry : ConsentEntry := ⟨consentHash, c, nowMs⟩
  ({ st1 with pendingBatch :=
      ⟨st1.pendingBatch.consents ++ [entry], some currentDay⟩ }, consentHash)

/-- Result of the background worker's `anchorDailyBatch`. -/
structure DailyResult where
  success : Bool
  message : Option String
  txHash : Option String
deriving DecidableEq

/-- Background worker `anchorDailyBatch` (lines 115-133): reports
"nothing to anchor" on an empty pending batch, otherwise delegates to
`anchorPendingBatch`.  (The consent-record status update it performs on
success touches only the separate consent log, not the batch state
modelled here.) -/
def anchorDailyBatch (hp : String → String → String)
    (spHash : PendingBatch → String) (adapter : Adapter) (nowMs : Nat)
    (st : ServiceState) : ServiceState × DailyResult :=
  if st.pendingBatch.consents.length = 0 then
    (st, ⟨false, some "No consents to anchor", none⟩)
  else
    match anchorPendingBatch hp spHash adapter nowMs st with
    | (st2, some r) =>
        if r.success then (st2, ⟨true, none, some r.txHash⟩)
        else (st2, ⟨false, some "Anchoring failed", none⟩)
    | (st2, none) => (st2, ⟨false, some "Anchoring failed", none⟩)

/-- Background worker `checkDayChange` (lines 102-110): anchor the
pending batch when its (truthy) day is strictly before the current day. -/
def checkDayChange (hp : String → String → String)
    (spHash : PendingBatch → String) (adapter : Adapter) (nowMs : Nat)
    (st : ServiceState) : ServiceState :=
  if (match st.pendingBatch.dayTimestamp with
      | none => false
      | some t => t != 0 && decide (t < getDayTimestamp nowMs)) then
    (anchorDailyBatch hp spHash adapter nowMs st).1
  else st

/-- The batch metadata returned by `verifyConsent` for an anchored hit. -/
structure BatchSummary where
  merkleRoot : String
  dayTimestamp : Option Nat
  txHash : String
  blockNumber : Option Nat
  network : String
deriving DecidableEq

def batchSummary (b : AnchoredBatch) : BatchSummary :=
  ⟨b.merkleRoot, b.dayTimestamp, b.txHash, b.blockNumber, b.network⟩

/-- The structured result of `verifyConsent` (one shape for the three
outcomes; absent JavaScript properties and `null` are `none`). -/
structure VerifyOutcome where
  verified : Bool
  pending : Bool
  batch : Option BatchSummary
  proof : Option (List String)
  localVerification : Option Bool
  onChainVerification : Option Bool
  message : String
deriving DecidableEq

/-- The body of the anchored-hit branch of `verifyConsent` (lines
306-346), for a given batch: regenerate the proof, verify locally, and
query the chain (`oc` abstracts `verifyOnChain`) only for non-simulated
receipts with a contract address set. -/
def anchoredOutcome (hp : String → String → String)
    (oc : String → String → List String → Option Bool) (cfg : Config)
    (b : AnchoredBatch) (h : String) : VerifyOutcome :=
  let pr := MerkleTree.generateProof strLower b.tree h
  ⟨true, false, some (batchSummary b), some pr.proof,
   some (MerkleTree.verifyProof strLower hp b.merkleRoot h pr.proof),
   (if !b.simulated && jsTruthyStr cfg.contractAddress then oc b.merkleRoot h pr.proof
    else none),
   "Consent verified in anchored batch"⟩

/-- Source `verifyConsent` lines 305-347: the `for (const batch of
this.anchoredBatches)` loop, iterating in list (anchoring) order; a batch
whose regenerated proof is invalid is skipped (`continue`). -/
def verifyConsentLoop (hp : String → String → String)
    (oc : String → String → List String → Option Bool) (cfg : Config)
    (h : String) : List AnchoredBatch → Option VerifyOutcome
  | [] => none
  | b :: rest =>
      if b.consents.any (fun ce => ce.hash == h) then
        if (MerkleTree.generateProof strLower b.tree h).valid then
          some (anchoredOutcome hp oc cfg b h)
        else verifyConsentLoop hp oc cfg h rest
      else verifyConsentLoop hp oc cfg h rest

/-- Source `verifyConsent` lines 303-363. -/
def verifyConsent (hp : String → String → String)
    (oc : String → String → List String → Option Bool) (st : ServiceState)
    (h : String) : VerifyOutcome :=
  match verifyConsentLoop hp oc st.config h st.anchoredBatches with
  | some r => r
  | none =>
      if st.pendingBatch.consents.any (fun ce => ce.hash == h) then
        ⟨false, true, none, none, none, none,
         "Consent is in pending batch (not yet anchored)"⟩
      else
        ⟨false, false, none, none, none, none,
         "Consent not found in any batch"⟩

/-- Modelled from the claim of C6 (spec section 4.4): the same search but
walking the anchored batches newest-first.  Used only to compare with the
source behaviour. -/
def claimVerifyConsentNewestFirst (hp : String → String → String)
    (oc : String → String → List String → Option Bool) (st : ServiceState)
    (h : String) : VerifyOutcome :=
  match verifyConsentLoop hp oc st.config h st.anchoredBatches.reverse with
  | some r => r
  | none =>
      if st.pendingBatch.consents.any (fun ce => ce.hash == h) then
        ⟨false, true, none, none, none, none,
         "Consent is in pending batch (not yet anchored)"⟩
      else
        ⟨false, false, none, none, none, none,
         "Consent not found in any batch"⟩

/-- JavaScript `ToInt32` (the coercion performed by `<<` and `&`). -/
def toInt32 (n : Int) : Int :=
  (n + 2 ^ 31) % 2 ^ 32 - 2 ^ 31

/-- Source `sha256Sync` loop lines 189-193: `hash = ((hash << 5) - hash)
+ data[i]; hash = hash & hash` — 32-bit signed arithmetic. -/
def sha256SyncLoop : Int → List Nat → Int
  | h, [] => h
  | h, b :: rest => sha256SyncLoop (toInt32 (toInt32 (h * 32) - h + (b : Int))) rest

/-- Source `sha256Sync` lines 186-198: the weak non-cryptographic
fallback — the 32-bit string hash, absolute value, lowercase hex, padded
to 64 characters. -/
def sha256Sync (data : List Nat) : String :=
  let h := sha256SyncLoop 0 data
  let hex := Nat.toDigits 16 h.natAbs
  String.mk ((List.replicate (64 - hex.length) '0' ++ hex).take 64)

/-- Source `keccak256` lines 165-179: use the ethers keccak256 when
available (`ethersKeccak` abstracts `ethers.keccak256(data)` with its
`0x` stripped), else silently fall back to `sha256Sync`. -/
def keccak256 (ethersAvailable : Bool) (ethersKeccak : List Nat → String)
    (data : List Nat) : String :=
  if ethersAvailable then ethersKeccak data
  else sha256Sync data

/-- Concrete pair hash used to evaluate the model on closed inputs. -/
def hashConcat : String → String → String := fun a b => a ++ b

/-- Concrete on-chain verifier stub (always `null`). -/
def noOnChain : String → String → List String → Option Bool := fun _ _ _ => none

/-- Concrete consent event with every optional field absent. -/
def sampleConsent : ConsentData := ⟨none, none, 0, none, none⟩

/-- Concrete configuration: simulated mode, no contract address. -/
def demoConfig : Config := ⟨"Polygon Mainnet", true, none⟩

/-- Concrete adapter whose commit always reports failure. -/
def failAdapter : Adapter := fun sim _ _ _ _ => (sim, ⟨false, "", none, "", 0, true⟩)

/-- Concrete adapter whose commit always reports success. -/
def okAdapter : Adapter :=
  fun sim _ _ _ _ => (sim, ⟨true, "0xff", none, "Simulated (Demo Mode)", 0, true⟩)

/-- Concrete state with an empty pending batch. -/
def emptyState : ServiceState := ⟨demoConfig, ⟨[], none⟩, [], ⟨[], 1000000⟩⟩

/-- Concrete state whose pending batch holds one leaf of day 86400
(1970-01-02). -/
def staleDayState : ServiceState :=
  ⟨demoConfig, ⟨[⟨"0xaa", sampleConsent, 0⟩], some 86400⟩, [], ⟨[], 1000000⟩⟩

/-- Concrete state whose pending batch holds one leaf of day 0
(1970-01-01, a falsy `dayTimestamp` in JavaScript). -/
def zeroDayState : ServiceState :=
  ⟨demoConfig, ⟨[⟨"0xaa", sampleConsent, 0⟩], some 0⟩, [], ⟨[], 1000000⟩⟩

/-- Concrete adapter environment with the clock at 1970-01-03. -/
def rolloverEnv : ChainEnv := ⟨false, false, "", "aa", 172800000⟩

/-- Concrete state whose leaf lives only in the pending batch. -/
def pendingOnlyState : ServiceState :=
  ⟨demoConfig, ⟨[⟨"0xbb", sampleConsent, 0⟩], some 0⟩, [], ⟨[], 1000000⟩⟩

/-- Concrete single-leaf tree reused by two anchored batches. -/
def sharedLeafTree : MerkleTree.Tree String :=
  MerkleTree.buildTree strLower hashConcat ["0xaa"]

/-- Concrete anchored batch holding leaf `0xaa`, anchored first. -/
def olderBatch : AnchoredBatch :=
  ⟨"0xaa", "", none, sharedLeafTree, [⟨"0xaa", sampleConsent, 0⟩], 0, "0x01",
   some 1, "Simulated (Demo Mode)", true⟩

/-- Concrete anchored batch holding the same leaf, anchored second. -/
def newerBatch : AnchoredBatch :=
  ⟨"0xaa", "", none, sharedLeafTree, [⟨"0xaa", sampleConsent, 0⟩], 0, "0x02",
   some 2, "Simulated (Demo Mode)", true⟩

/-- Concrete state with the same leaf in two anchored batches. -/
def twoBatchState : ServiceState :=
  ⟨demoConfig, ⟨[], none⟩, [olderBatch, newerBatch], ⟨[], 1000000⟩⟩

end BlockchainService

namespace MerkleTree

variable {α : Type} [LinearOrder α] [Inhabited α]

theorem combinePair_of_le (hp : α → α → α) {a b : α} (h : a ≤ b) :
    combinePair hp a b = hp a b := if_pos h

theorem combinePair_self (hp : α → α → α) (a : α) :
    combinePair hp a a = hp a a := if_pos le_rfl

theorem combinePair_comm (hp : α → α → α) (a b : α) :
    combinePair hp a b = combinePair hp b a := by
  unfold combinePair
  rcases le_total a b with h | h
  · by_cases h2 : b ≤ a
    · have hab : a = b := le_antisymm h h2
      subst hab; rfl
    · simp [h, h2]
  · by_cases h2 : a ≤ b
    · have hab : a = b := le_antisymm h2 h
      subst hab; rfl
    · simp [h, h2]

theorem combinePair_eq_hp (hp : α → α → α) (a b : α) :
    ∃ u v, combinePair hp a b = hp u v := by
  unfold combinePair
  split
  · exact ⟨a, b, rfl⟩
  · exact ⟨b, a, rfl⟩

theorem length_buildLevelUp (hp : α → α → α) :
    ∀ l : List α, (buildLevelUp hp l).length = (l.length + 1) / 2
  | [] => by simp [buildLevelUp]
  | [a] => by simp [buildLevelUp]
  | a :: b :: rest => by
      simp [buildLevelUp, length_buildLevelUp hp rest]
      omega

theorem mem_buildLevelUp (hp : α → α → α) :
    ∀ (l : List α) (x : α), x ∈ buildLevelUp hp l → ∃ u v, x = hp u v
  | [], x, hx => by simp [buildLevelUp] at hx
  | [a], x, hx => by
      simp [buildLevelUp] at hx
      exact hx ▸ combinePair_eq_hp hp a a
  | a :: b :: rest, x, hx => by
      simp [buildLevelUp] at hx
      rcases hx with rfl | hx
      · exact combinePair_eq_hp hp a b
      · exact mem_buildLevelUp hp rest x hx

theorem buildLevelUp_getD (hp : α → α → α) (d : α) :
    ∀ (l : List α) (i : Nat), 2 * i < l.length →
      (buildLevelUp hp l).getD i d =
        if 2 * i + 1 < l.length then
          combinePair hp (l.getD (2 * i) d) (l.getD (2 * i + 1) d)
        else combinePair hp (l.getD (2 * i) d) (l.getD (2 * i) d)
  | [], i, h => by simp at h
  | [a], i, h => by
      have hi : i = 0 := by simp at h; omega
      subst hi
      simp [buildLevelUp]
  | a :: b :: rest, 0, h => by
      simp [buildLevelUp]
  | a :: b :: rest, i + 1, h => by
      have h' : 2 * i < rest.length := by simp at h; omega
      have ih := buildLevelUp_getD hp d rest i h'
      have e1 : 2 * (i + 1) = 2 * i + 1 + 1 := by omega
      have e2 : 2 * (i + 1) + 1 = 2 * i + 1 + 1 + 1 := by omega
      simp only [buildLevelUp, List.getD_cons_succ, e1, e2, List.length_cons]
      rw [ih]
      by_cases hc : 2 * i + 1 < rest.length
      · rw [if_pos hc, if_pos (by omega)]
      · rw [if_neg hc, if_neg (by omega)]

theorem buildLevels_exists_cons (hp : α → α → α) (fuel : Nat) (cur : List α) :
    ∃ rest, buildLevels hp fuel cur = cur :: rest := by
  cases fuel with
  | zero => exact ⟨[], rfl⟩
  | succ n =>
      simp only [buildLevels]
      split
      · exact ⟨_, rfl⟩
      · exact ⟨[], rfl⟩

theorem buildLevels_chain (norm : α → α) (hp : α → α → α)
    (hhp : ∀ a b, norm (hp a b) = hp a b) :
    ∀ (fuel : Nat) (cur : List α), cur.length ≤ fuel + 1 →
      (∀ x ∈ cur, norm x = x) →
      ∀ i, i < cur.length →
        ((buildLevels hp fuel cur).getLast?.bind List.head?) =
          some ((genProofAux (buildLevels hp fuel cur) i).foldl
            (fun c e => combinePair hp c (norm e)) (cur.getD i default)) := by
  intro fuel
  induction fuel with
  | zero =>
      intro cur hlen hnorm i hi
      obtain ⟨a, rfl⟩ : ∃ a, cur = [a] := by
        cases cur with
        | nil => simp at hi
        | cons a t =>
            cases t with
            | nil => exact ⟨a, rfl⟩
            | cons b t2 => simp at hlen
      have hi0 : i = 0 := by simp at hi; omega
      subst hi0
      simp [buildLevels, genProofAux]
  | succ n ih =>
      intro cur hlen hnorm i hi
      by_cases hbig : cur.length > 1
      · have hstep : buildLevels hp (n + 1) cur =
            cur :: buildLevels hp n (buildLevelUp hp cur) := by
          simp [buildLevels, hbig]
        obtain ⟨rest, hrest⟩ := buildLevels_exists_cons hp n (buildLevelUp hp cur)
        rw [hstep, hrest, List.getLast?_cons_cons]
        -- expose the genProofAux step
        have hgen : genProofAux (cur :: buildLevelUp hp cur :: rest) i =
            (if (if i % 2 = 1 then i - 1 else i + 1) < cur.length then
              cur.getD (if i % 2 = 1 then i - 1 else i + 1) default
             else cur.getD i default) :: genProofAux (buildLevelUp hp cur :: rest) (i / 2) := rfl
        rw [hgen, List.foldl_cons]
        -- the folded element is a member of cur, hence fixed by norm
        set sibIdx := if i % 2 = 1 then i - 1 else i + 1 with hsib
        set e := if sibIdx < cur.length then cur.getD sibIdx default else cur.getD i default with he
        have hemem : e ∈ cur := by
          rw [he]
          split
          · next hlt => rw [List.getD_eq_getElem cur default hlt]; exact List.getElem_mem _
          · rw [List.getD_eq_getElem cur default hi]; exact List.getElem_mem _
        have hne : norm e = e := hnorm e hemem
        rw [hne]
        -- the combination equals the parent node
        have h2i : 2 * (i / 2) < cur.length := by omega
        have hup := buildLevelUp_getD hp default cur (i / 2) h2i
        have hcomb : combinePair hp (cur.getD i default) e =
            (buildLevelUp hp cur).getD (i / 2) default := by
          by_cases hpar : i % 2 = 1
          · have hiodd0 : 1 ≤ i := by omega
            have e1 : 2 * (i / 2) = i - 1 := by omega
            have e2 : 2 * (i / 2) + 1 = i := by omega
            rw [e2, e1] at hup
            have hsiblt : sibIdx < cur.length := by rw [hsib, if_pos hpar]; omega
            rw [hup, if_pos hi, he, if_pos hsiblt, hsib, if_pos hpar]
            exact combinePair_comm hp (cur.getD i default) (cur.getD (i - 1) default)
          · have e1 : 2 * (i / 2) = i := by omega
            have e2 : 2 * (i / 2) + 1 = i + 1 := by omega
            rw [e2, e1] at hup
            by_cases hnext : i + 1 < cur.length
            · have hsiblt : sibIdx < cur.length := by rw [hsib, if_neg hpar]; omega
              rw [hup, if_pos hnext, he, if_pos hsiblt, hsib, if_neg hpar]
            · have hsibge : ¬ sibIdx < cur.length := by rw [hsib, if_neg hpar]; omega
              rw [hup, if_neg hnext, he, if_neg hsibge]
        rw [hcomb]
        -- apply the induction hypothesis one level up
        have hlen2 : (buildLevelUp hp cur).length ≤ n + 1 := by
          rw [length_buildLevelUp]; omega
        have hnorm2 : ∀ x ∈ buildLevelUp hp cur, norm x = x := by
          intro x hx
          obtain ⟨u, v, rfl⟩ := mem_buildLevelUp hp cur x hx
          exact hhp u v
        have hi2 : i / 2 < (buildLevelUp hp cur).length := by
          rw [length_buildLevelUp]; omega
        have := ih (buildLevelUp hp cur) hlen2 hnorm2 (i / 2) hi2
        rw [hrest] at this
        exact this
      · obtain ⟨a, rfl⟩ : ∃ a, cur = [a] := by
          cases cur with
          | nil => simp at hi
          | cons a t =>
              cases t with
              | nil => exact ⟨a, rfl⟩
              | cons b t2 => simp at hbig
        have hi0 : i = 0 := by simp at hi; omega
        subst hi0
        simp [buildLevels, genProofAux]

theorem buildLevels_root_normfixed (norm : α → α) (hp : α → α → α)
    (hhp : ∀ a b, norm (hp a b) = hp a b) :
    ∀ (fuel : Nat) (cur : List α), (∀ x ∈ cur, norm x = x) →
      ∀ r, ((buildLevels hp fuel cur).getLast?.bind List.head?) = some r →
        norm r = r := by
  intro fuel
  induction fuel with
  | zero =>
      intro cur hnorm r hr
      simp [buildLevels] at hr
      cases cur with
      | nil => simp at hr
      | cons a t =>
          simp at hr
          exact hr ▸ hnorm a (by simp)
  | succ n ih =>
      intro cur hnorm r hr
      by_cases hbig : cur.length > 1
      · have hstep : buildLevels hp (n + 1) cur =
            cur :: buildLevels hp n (buildLevelUp hp cur) := by
          simp [buildLevels, hbig]
        obtain ⟨rest, hrest⟩ := buildLevels_exists_cons hp n (buildLevelUp hp cur)
        rw [hstep, hrest, List.getLast?_cons_cons, ← hrest] at hr
        have hnorm2 : ∀ x ∈ buildLevelUp hp cur, norm x = x := by
          intro x hx
          obtain ⟨u, v, rfl⟩ := mem_buildLevelUp hp cur x hx
          exact hhp u v
        exact ih (buildLevelUp hp cur) hnorm2 r hr
      · have hstep : buildLevels hp (n + 1) cur = [cur] := by
          simp [buildLevels, hbig]
        rw [hstep] at hr
        simp at hr
        cases cur with
        | nil => simp at hr
        | cons a t =>
            simp at hr
            exact hr ▸ hnorm a (by simp)

theorem jsIndexOf_spec [DecidableEq α] (a d : α) :
    ∀ l : List α, a ∈ l →
      ∃ i, jsIndexOf a l = some i ∧ i < l.length ∧ l.getD i d = a
  | [], h => by simp at h
  | b :: t, h => by
      by_cases hb : b = a
      · exact ⟨0, by simp [jsIndexOf, hb], by simp, by simp [hb]⟩
      · have ha : a ∈ t := by
          rcases List.mem_cons.mp h with h1 | h1
          · exact absurd h1.symm hb
          · exact h1
        obtain ⟨i, h1, h2, h3⟩ := jsIndexOf_spec a d t ha
        refine ⟨i + 1, by simp [jsIndexOf, hb, h1], by simp; omega, by simpa using h3⟩

theorem generateProof_eq [DecidableEq α] (norm : α → α) (t : Tree α) (leaf : α)
    (l0 : List α) (rest : List (List α)) (h : t.levels = l0 :: rest)
    (i : Nat) (hfind : jsIndexOf (norm leaf) l0 = some i) :
    generateProof norm t leaf = ⟨true, genProofAux (l0 :: rest) i, (i : Int), t.root⟩ := by
  unfold generateProof
  rw [h]
  dsimp only
  rw [hfind]

end MerkleTree

namespace BlockchainService

open MerkleTree

theorem anchorBatchOnChain_success (env : ChainEnv) (cfg : Config)
    (sim : SimChain) (root sp : String) (day : Option Nat) (n : Nat) :
    (anchorBatchOnChain env cfg sim root sp day n).2.success = true := by
  unfold anchorBatchOnChain anchorOnSimulatedChain
  split
  · split
    · rfl
    · rfl
  · rfl

theorem anchorPendingBatch_success_spec (hp : String → String → String)
    (spH : PendingBatch → String) (adapter : Adapter) (nowMs : Nat)
    (st : ServiceState) (hne : st.pendingBatch.consents ≠ [])
    (hsucc : ∀ sim r sp d n, (adapter sim r sp d n).2.success = true) :
    ∃ ab : AnchoredBatch,
      (anchorPendingBatch hp spH adapter nowMs st).1.anchoredBatches =
          st.anchoredBatches ++ [ab]
      ∧ ab.consents = st.pendingBatch.consents
      ∧ ab.dayTimestamp = st.pendingBatch.dayTimestamp
      ∧ ab.tree = MerkleTree.buildTree strLower hp
          (st.pendingBatch.consents.map ConsentEntry.hash)
      ∧ ab.merkleRoot = (MerkleTree.buildTree strLower hp
          (st.pendingBatch.consents.map ConsentEntry.hash)).root.getD ""
      ∧ (anchorPendingBatch hp spH adapter nowMs st).1.pendingBatch = ⟨[], none⟩
      ∧ (anchorPendingBatch hp spH adapter nowMs st).1.config = st.config
      ∧ ∃ r, (anchorPendingBatch hp spH adapter nowMs st).2 = some r
          ∧ r.success = true := by
  have hlen : ¬ st.pendingBatch.consents.length = 0 := by
    simpa using hne
  unfold anchorPendingBatch
  rw [if_neg hlen]
  dsimp only
  rw [if_pos (hsucc _ _ _ _ _)]
  refine ⟨_, rfl, rfl, rfl, rfl, rfl, rfl, rfl, _, rfl, hsucc _ _ _ _ _⟩

theorem anchorPendingBatch_failure_spec (hp : String → String → String)
    (spH : PendingBatch → String) (adapter : Adapter) (nowMs : Nat)
    (st : ServiceState) (hne : st.pendingBatch.consents ≠ [])
    (hfail : ∀ sim r sp d n, (adapter sim r sp d n).2.success = false) :
    (anchorPendingBatch hp spH adapter nowMs st).1.pendingBatch = st.pendingBatch
    ∧ (anchorPendingBatch hp spH adapter nowMs st).1.anchoredBatches =
        st.anchoredBatches
    ∧ (anchorPendingBatch hp spH adapter nowMs st).1.config = st.config := by
  have hlen : ¬ st.pendingBatch.consents.length = 0 := by simpa using hne
  unfold anchorPendingBatch
  rw [if_neg hlen]
  dsimp only
  rw [if_neg (by simp [hfail _ _ _ _ _])]
  exact ⟨rfl, rfl, rfl⟩

theorem verifyConsentLoop_none (hp : String → String → String)
    (oc : String → String → List String → Option Bool) (cfg : Config)
    (h : String) (bs : List AnchoredBatch)
    (hb : ∀ b ∈ bs, ∀ ce ∈ b.consents, ce.hash ≠ h) :
    verifyConsentLoop hp oc cfg h bs = none := by
  induction bs with
  | nil => rfl
  | cons b rest ih =>
      have hany : (b.consents.any fun ce => ce.hash == h) = false := by
        simp only [List.any_eq_false]
        intro ce hce
        simpa using hb b (by simp) ce hce
      simp only [verifyConsentLoop, hany]
      simp only [Bool.false_eq_true, if_false]
      exact ih (fun b2 hb2 ce hce => hb b2 (by simp [hb2]) ce hce)

theorem verifyConsentLoop_first (hp : String → String → String)
    (oc : String → String → List String → Option Bool) (cfg : Config)
    (h : String) (pre : List AnchoredBatch) (b : AnchoredBatch)
    (post : List AnchoredBatch)
    (hpre : ∀ b2 ∈ pre, ∀ ce ∈ b2.consents, ce.hash ≠ h)
    (hmem : ∃ ce ∈ b.consents, ce.hash = h)
    (hvalid : (MerkleTree.generateProof strLower b.tree h).valid = true) :
    verifyConsentLoop hp oc cfg h (pre ++ b :: post) =
      some (anchoredOutcome hp oc cfg b h) := by
  induction pre with
  | nil =>
      have hany : (b.consents.any fun ce => ce.hash == h) = true := by
        simp only [List.any_eq_true]
        obtain ⟨ce, hce, hh⟩ := hmem
        exact ⟨ce, hce, by simp [hh]⟩
      simp only [List.nil_append, verifyConsentLoop, hany, if_true, hvalid]
  | cons b2 pre2 ih =>
      have hany : (b2.consents.any fun ce => ce.hash == h) = false := by
        simp only [List.any_eq_false]
        intro ce hce
        simpa using hpre b2 (by simp) ce hce
      simp only [List.cons_append, verifyConsentLoop, hany]
      simp only [Bool.false_eq_true, if_false]
      exact ih (fun b3 hb3 ce hce => hpre b3 (by simp [hb3]) ce hce)

end BlockchainService

open MerkleTree BlockchainService

/-- Claim C1 (confirmed): round-trip of inclusion proofs.  For every
non-empty leaf list and every leaf in it, building the tree, generating a
proof for the leaf, and checking it against the root succeeds — the
index-based sibling selection of `generateProof` is consistent with the
lower-value-first combination order of `verifyProof`.  The normalisation
is assumed idempotent and to fix pair-hash outputs, as `toLowerCase` does
on the lowercase hex output of `keccak256Pair`. -/
theorem merkle_roundtrip_inclusion {α : Type} [LinearOrder α] [Inhabited α] [DecidableEq α]
    (norm : α → α) (hp : α → α → α)
    (hnorm : ∀ x, norm (norm x) = norm x)
    (hhp : ∀ a b, norm (hp a b) = hp a b)
    (leaves : List α) (leaf : α) (hmem : leaf ∈ leaves)
    (r : α) (hr : (buildTree norm hp leaves).root = some r) :
    verifyProof norm hp r leaf
      (generateProof norm (buildTree norm hp leaves) leaf).proof = true := by
  cases leaves with
  | nil => simp at hmem
  | cons a as =>
      have hbt : buildTree norm hp (a :: as) =
          ⟨buildLevels hp (((a :: as).map norm).insertionSort (· ≤ ·)).length
              (((a :: as).map norm).insertionSort (· ≤ ·)),
           (buildLevels hp (((a :: as).map norm).insertionSort (· ≤ ·)).length
              (((a :: as).map norm).insertionSort (· ≤ ·))).getLast?.bind List.head?,
           (a :: as).length⟩ := rfl
      set level0 := ((a :: as).map norm).insertionSort (· ≤ ·) with hl0
      have hnormfix : ∀ x ∈ level0, norm x = x := by
        intro x hx
        rw [hl0, List.mem_insertionSort] at hx
        obtain ⟨y, hy, rfl⟩ := List.mem_map.mp hx
        exact hnorm y
      have hmem0 : norm leaf ∈ level0 := by
        rw [hl0, List.mem_insertionSort]
        exact List.mem_map_of_mem norm hmem
      obtain ⟨i, hfind, hilt, hget⟩ := jsIndexOf_spec (norm leaf) default level0 hmem0
      obtain ⟨rest, hshape⟩ := buildLevels_exists_cons hp level0.length level0
      have hlev : (buildTree norm hp (a :: as)).levels = level0 :: rest := by
        rw [hbt]; exact hshape
      have hgp := generateProof_eq norm (buildTree norm hp (a :: as)) leaf
        level0 rest hlev i hfind
      rw [hgp]
      have hr' : ((buildLevels hp level0.length level0).getLast?.bind List.head?)
          = some r := by
        rw [hbt] at hr; exact hr
      have hnr : norm r = r :=
        buildLevels_root_normfixed norm hp hhp level0.length level0 hnormfix r hr'
      have hchain := buildLevels_chain norm hp hhp level0.length level0
        (by omega) hnormfix i hilt
      rw [hr'] at hchain
      rw [hshape] at hchain
      have hfold : (genProofAux (level0 :: rest) i).foldl
          (fun c e => combinePair hp c (norm e)) (level0.getD i default) = r :=
        (Option.some.injEq _ _ ▸ hchain).symm
      simp only [verifyProof, decide_eq_true_eq]
      rw [hnr, ← hget]
      exact hfold

/-- Witness for C1 at the leaf list `[5, 3, 8]` and leaf `3` over `Nat`
with pair hash `a + b`: the root is 24 and the generated proof
verifies. -/
theorem merkle_roundtrip_inclusion_witness :
    (3 ∈ [5, 3, 8] ∧
      (MerkleTree.buildTree (fun x : Nat => x) (fun a b => a + b) [5, 3, 8]).root =
        some 24) ∧
    MerkleTree.verifyProof (fun x : Nat => x) (fun a b => a + b) 24 3
      (MerkleTree.generateProof (fun x : Nat => x)
        (MerkleTree.buildTree (fun x : Nat => x) (fun a b => a + b) [5, 3, 8]) 3).proof =
      true :=
  ⟨⟨by decide, by decide⟩,
   merkle_roundtrip_inclusion (fun x => x) (fun a b => a + b) (fun _ => rfl)
     (fun _ _ => rfl) [5, 3, 8] 3 (by decide) 24 (by decide)⟩

/-- Claim C2 (confirmed): determinism of the root.  For every list of
leaf hashes and every permutation of it, `buildTree` produces the same
root, because level 0 is normalised and sorted before the tree is
built. -/
theorem merkle_root_order_independent {α : Type} [LinearOrder α] [Inhabited α]
    (norm : α → α) (hp : α → α → α) (L L2 : List α) (h : L.Perm L2) :
    (buildTree norm hp L).root = (buildTree norm hp L2).root := by
  cases L with
  | nil =>
      have h2 : L2 = [] := List.Perm.eq_nil h.symm
      subst h2; rfl
  | cons a as =>
      cases L2 with
      | nil =>
          have := h.length_eq
          simp at this
      | cons b bs =>
          have hsort : ((a :: as).map norm).insertionSort (· ≤ ·) =
              ((b :: bs).map norm).insertionSort (· ≤ ·) := by
            exact List.eq_of_perm_of_sorted
              (((List.perm_insertionSort _ _).trans (h.map norm)).trans
                (List.perm_insertionSort _ _).symm)
              (List.sorted_insertionSort _ _) (List.sorted_insertionSort _ _)
          show ((buildLevels hp (((a :: as).map norm).insertionSort (· ≤ ·)).length
              (((a :: as).map norm).insertionSort (· ≤ ·))).getLast?.bind List.head?) =
            ((buildLevels hp (((b :: bs).map norm).insertionSort (· ≤ ·)).length
              (((b :: bs).map norm).insertionSort (· ≤ ·))).getLast?.bind List.head?)
          rw [hsort]

/-- Witness for C2 at the permutation `[1, 2] ~ [2, 1]` over `Nat`. -/
theorem merkle_root_order_independent_witness :
    ([1, 2] : List Nat).Perm [2, 1] ∧
    (MerkleTree.buildTree (fun x : Nat => x) (fun a b => 10 * a + b) [1, 2]).root =
      (MerkleTree.buildTree (fun x : Nat => x) (fun a b => 10 * a + b) [2, 1]).root :=
  ⟨by decide,
   merkle_root_order_independent (fun x => x) (fun a b => 10 * a + b) [1, 2] [2, 1]
     (by decide)⟩

/-- Claim C7 (confirmed): the pairing rule of `buildTree`.  At every
level adjacent nodes are paired lower value first and combined with the
pair hash; an odd trailing node is paired with itself, the duplicate
being a real second input to the hash — in particular a sorted 3-leaf
tree has root `combinePair hp (hp a b) (hp c c)`, with `c` hashed
together with `c`, not alone. -/
theorem merkle_pairing_rule {α : Type} [LinearOrder α] [Inhabited α] (hp : α → α → α) :
    (∀ (cur : List α) (d : α) (i : Nat), 2 * i + 1 < cur.length →
        (buildLevelUp hp cur).getD i d =
          combinePair hp (cur.getD (2 * i) d) (cur.getD (2 * i + 1) d))
    ∧ (∀ (cur : List α) (d : α) (i : Nat), 2 * i + 1 = cur.length →
        (buildLevelUp hp cur).getD i d =
          hp (cur.getD (2 * i) d) (cur.getD (2 * i) d))
    ∧ (∀ (norm : α → α) (a b c : α), norm a = a → norm b = b → norm c = c →
        a ≤ b → b ≤ c →
        (buildTree norm hp [a, b, c]).root =
          some (combinePair hp (hp a b) (hp c c))) := by
  refine ⟨?_, ?_, ?_⟩
  · intro cur d i h
    rw [buildLevelUp_getD hp d cur i (by omega), if_pos h]
  · intro cur d i h
    rw [buildLevelUp_getD hp d cur i (by omega), if_neg (by omega),
      combinePair_self]
  · intro norm a b c hna hnb hnc hab hbc
    have hmap : [a, b, c].map norm = [a, b, c] := by simp [hna, hnb, hnc]
    have hsorted : List.Sorted (· ≤ ·) [a, b, c] := by
      simp [List.sorted_cons]
      exact ⟨⟨hab, le_trans hab hbc⟩, hbc⟩
    have hsort : ([a, b, c] : List α).insertionSort (· ≤ ·) = [a, b, c] :=
      List.eq_of_perm_of_sorted (List.perm_insertionSort _ _)
        (List.sorted_insertionSort _ _) hsorted
    show ((buildLevels hp (([a, b, c].map norm).insertionSort (· ≤ ·)).length
        (([a, b, c].map norm).insertionSort (· ≤ ·))).getLast?.bind List.head?) = _
    rw [hmap, hsort]
    have hup1 : buildLevelUp hp [a, b, c] = [hp a b, hp c c] := by
      show combinePair hp a b :: buildLevelUp hp [c] = _
      rw [combinePair_of_le hp hab]
      show [hp a b, combinePair hp c c] = _
      rw [combinePair_self]
    have hup2 : buildLevelUp hp [hp a b, hp c c] =
        [combinePair hp (hp a b) (hp c c)] := rfl
    show ((buildLevels hp 3 [a, b, c]).getLast?.bind List.head?) = _
    rw [show buildLevels hp 3 [a, b, c] =
        [a, b, c] :: buildLevels hp 2 (buildLevelUp hp [a, b, c]) by
      simp [buildLevels]]
    rw [hup1]
    rw [show buildLevels hp 2 [hp a b, hp c c] =
        [hp a b, hp c c] :: buildLevels hp 1 (buildLevelUp hp [hp a b, hp c c]) by
      simp [buildLevels]]
    rw [hup2]
    rw [show buildLevels hp 1 [combinePair hp (hp a b) (hp c c)] =
        [[combinePair hp (hp a b) (hp c c)]] by simp [buildLevels]]
    rfl

/-- Witness for C7: the even pair of `[1, 2, 3, 4]`, the odd trailing
self-pair of `[1, 2, 3]`, and the 3-leaf root over `Nat` with pair hash
`a + b`. -/
theorem merkle_pairing_rule_witness :
    (MerkleTree.buildLevelUp (fun a b : Nat => a + b) [1, 2, 3, 4]).getD 0 0 =
      MerkleTree.combinePair (fun a b => a + b) 1 2
    ∧ (MerkleTree.buildLevelUp (fun a b : Nat => a + b) [1, 2, 3]).getD 1 0 = 3 + 3
    ∧ (MerkleTree.buildTree (fun x : Nat => x) (fun a b : Nat => a + b) [1, 2, 3]).root =
        some (MerkleTree.combinePair (fun a b : Nat => a + b) (1 + 2) (3 + 3)) :=
  ⟨(merkle_pairing_rule (fun a b => a + b)).1 [1, 2, 3, 4] 0 0 (by decide),
   (merkle_pairing_rule (fun a b => a + b)).2.1 [1, 2, 3] 0 1 (by decide),
   (merkle_pairing_rule (fun a b => a + b)).2.2 (fun x => x) 1 2 3 rfl rfl rfl
     (by decide) (by decide)⟩

/-- Claim C3 (corrected): day rollover.  When `addConsentToBatch`
observes a current UTC day later than the pending batch day `D`, and `D`
is nonzero (the code treats a zero `dayTimestamp` — 1970-01-01 — as
unset, see the counterexample), exactly one anchoring of the old batch
for day `D` runs before the new event is appended: the anchored list
grows by exactly that batch, the fresh pending batch holds only the new
event stamped with the current day, and the worker `checkDayChange`
afterwards is a no-op. -/
theorem day_rollover_anchors_previous_batch (sha : String → List Nat) (hp : String → String → String)
    (spH : PendingBatch → String) (env : ChainEnv) (nowMs : Nat)
    (st : ServiceState) (c : ConsentData) (D : Nat)
    (hD : st.pendingBatch.dayTimestamp = some D) (hD0 : D ≠ 0)
    (hlt : D < getDayTimestamp nowMs)
    (hne : st.pendingBatch.consents ≠ []) :
    ∃ ab : AnchoredBatch,
      (addConsentToBatch sha hp spH (anchorBatchOnChain env st.config)
          nowMs st c).1.anchoredBatches = st.anchoredBatches ++ [ab]
      ∧ ab.dayTimestamp = some D
      ∧ ab.consents = st.pendingBatch.consents
      ∧ (addConsentToBatch sha hp spH (anchorBatchOnChain env st.config)
          nowMs st c).1.pendingBatch =
          ⟨[⟨generateConsentHash sha c, c, nowMs⟩], some (getDayTimestamp nowMs)⟩
      ∧ (addConsentToBatch sha hp spH (anchorBatchOnChain env st.config)
          nowMs st c).2 = generateConsentHash sha c
      ∧ checkDayChange hp spH (anchorBatchOnChain env st.config) nowMs
          (addConsentToBatch sha hp spH (anchorBatchOnChain env st.config)
            nowMs st c).1 =
          (addConsentToBatch sha hp spH (anchorBatchOnChain env st.config)
            nowMs st c).1 := by
  have hcond : (jsTruthyNat st.pendingBatch.dayTimestamp
      && st.pendingBatch.dayTimestamp != some (getDayTimestamp nowMs)) = true := by
    rw [hD]
    simp [jsTruthyNat, hD0]
    omega
  obtain ⟨ab, a1, a2, a3, a4, a5, a6, a7, r, hr1, hr2⟩ :=
    anchorPendingBatch_success_spec hp spH (anchorBatchOnChain env st.config)
      nowMs st hne
      (fun sim r sp d n => anchorBatchOnChain_success env st.config sim r sp d n)
  have hadd : addConsentToBatch sha hp spH (anchorBatchOnChain env st.config)
      nowMs st c =
      ({ (anchorPendingBatch hp spH (anchorBatchOnChain env st.config) nowMs st).1
          with pendingBatch :=
            ⟨(anchorPendingBatch hp spH (anchorBatchOnChain env st.config)
                nowMs st).1.pendingBatch.consents ++
              [⟨generateConsentHash sha c, c, nowMs⟩],
             some (getDayTimestamp nowMs)⟩ },
       generateConsentHash sha c) := by
    unfold addConsentToBatch
    simp only [hcond, if_true]
  refine ⟨ab, ?_, by rw [a3, hD], a2, ?_, by rw [hadd], ?_⟩
  · rw [hadd]
    exact a1
  · rw [hadd]
    dsimp only
    rw [a6]
    simp
  · rw [hadd]
    unfold checkDayChange
    dsimp only
    rw [if_neg (by simp)]

/-- Claim C3 counterexample: with a pending batch of day 0 holding one
leaf and a new event two days later, the claimed `closeBatch` does not
run — nothing is anchored and the old event stays in the pending batch,
now stamped with the new day — because `0` fails the JavaScript
truthiness test `this.pendingBatch.dayTimestamp && ...`. -/
theorem day_rollover_zero_day_counterexample :
    (addConsentToBatch (fun _ => []) hashConcat (fun _ => "")
        (anchorBatchOnChain rolloverEnv zeroDayState.config) 172800000 zeroDayState
        sampleConsent).1.anchoredBatches = []
    ∧ (addConsentToBatch (fun _ => []) hashConcat (fun _ => "")
        (anchorBatchOnChain rolloverEnv zeroDayState.config) 172800000 zeroDayState
        sampleConsent).1.pendingBatch =
        ⟨[⟨"0xaa", sampleConsent, 0⟩, ⟨"0x", sampleConsent, 172800000⟩],
         some 172800⟩ := by
  decide

/-- Witness for C3 at a one-leaf pending batch of day 86400 and the
clock at day 172800. -/
theorem day_rollover_anchors_previous_batch_witness :
    ∃ ab : AnchoredBatch,
      (addConsentToBatch (fun _ => []) hashConcat (fun _ => "")
          (anchorBatchOnChain rolloverEnv staleDayState.config) 172800000
          staleDayState sampleConsent).1.anchoredBatches =
        staleDayState.anchoredBatches ++ [ab]
      ∧ ab.dayTimestamp = some 86400
      ∧ ab.consents = staleDayState.pendingBatch.consents
      ∧ (addConsentToBatch (fun _ => []) hashConcat (fun _ => "")
          (anchorBatchOnChain rolloverEnv staleDayState.config) 172800000
          staleDayState sampleConsent).1.pendingBatch =
          ⟨[⟨generateConsentHash (fun _ => []) sampleConsent, sampleConsent, 172800000⟩],
           some (getDayTimestamp 172800000)⟩
      ∧ (addConsentToBatch (fun _ => []) hashConcat (fun _ => "")
          (anchorBatchOnChain rolloverEnv staleDayState.config) 172800000
          staleDayState sampleConsent).2 = generateConsentHash (fun _ => []) sampleConsent
      ∧ checkDayChange hashConcat (fun _ => "")
          (anchorBatchOnChain rolloverEnv staleDayState.config) 172800000
          (addConsentToBatch (fun _ => []) hashConcat (fun _ => "")
            (anchorBatchOnChain rolloverEnv staleDayState.config) 172800000
            staleDayState sampleConsent).1 =
          (addConsentToBatch (fun _ => []) hashConcat (fun _ => "")
            (anchorBatchOnChain rolloverEnv staleDayState.config) 172800000
            staleDayState sampleConsent).1 :=
  day_rollover_anchors_previous_batch (fun _ => []) hashConcat (fun _ => "")
    rolloverEnv 172800000 staleDayState sampleConsent 86400 rfl (by decide)
    (by decide) (by decide)

/-- Claim C4 (confirmed): atomicity of `closeBatch` on adapter failure.
If the commit step reports failure, the pending batch still holds exactly
its original entries and the anchored list is unchanged; a subsequent
successful close anchors exactly that leaf set (same entries, root built
over the same leaf hashes) and clears the pending batch. -/
theorem close_batch_adapter_failure_atomic (hp : String → String → String) (spH : PendingBatch → String)
    (adapterF adapterS : Adapter) (nowMs nowMs2 : Nat) (st : ServiceState)
    (hne : st.pendingBatch.consents ≠ [])
    (hfail : ∀ sim r sp d n, (adapterF sim r sp d n).2.success = false)
    (hsucc : ∀ sim r sp d n, (adapterS sim r sp d n).2.success = true) :
    (anchorPendingBatch hp spH adapterF nowMs st).1.pendingBatch = st.pendingBatch
    ∧ (anchorPendingBatch hp spH adapterF nowMs st).1.anchoredBatches =
        st.anchoredBatches
    ∧ ∃ ab : AnchoredBatch,
        (anchorPendingBatch hp spH adapterS nowMs2
            (anchorPendingBatch hp spH adapterF nowMs st).1).1.anchoredBatches =
          st.anchoredBatches ++ [ab]
        ∧ ab.consents = st.pendingBatch.consents
        ∧ ab.merkleRoot = (MerkleTree.buildTree strLower hp
            (st.pendingBatch.consents.map ConsentEntry.hash)).root.getD ""
        ∧ (anchorPendingBatch hp spH adapterS nowMs2
            (anchorPendingBatch hp spH adapterF nowMs st).1).1.pendingBatch =
          ⟨[], none⟩ := by
  obtain ⟨h1, h2, h3⟩ :=
    anchorPendingBatch_failure_spec hp spH adapterF nowMs st hne hfail
  have hne1 : (anchorPendingBatch hp spH adapterF nowMs st).1.pendingBatch.consents ≠ [] := by
    rw [h1]; exact hne
  obtain ⟨ab, a1, a2, a3, a4, a5, a6, a7, r, hr1, hr2⟩ :=
    anchorPendingBatch_success_spec hp spH adapterS nowMs2
      (anchorPendingBatch hp spH adapterF nowMs st).1 hne1 hsucc
  refine ⟨h1, h2, ab, ?_, ?_, ?_, a6⟩
  · rw [a1, h2]
  · rw [a2, h1]
  · rw [a5, h1]

/-- Witness for C4 at a one-leaf pending batch with the always-failing
and always-succeeding concrete adapters. -/
theorem close_batch_adapter_failure_atomic_witness :
    (anchorPendingBatch hashConcat (fun _ => "") failAdapter 0
        staleDayState).1.pendingBatch = staleDayState.pendingBatch :=
  (close_batch_adapter_failure_atomic hashConcat (fun _ => "") failAdapter okAdapter
    0 1 staleDayState (by decide) (fun _ _ _ _ _ => rfl) (fun _ _ _ _ _ => rfl)).1

/-- Claim C5 counterexample: for an event with a missing category the
source hashes `...|general` whereas the claim prescribes `...|` (empty
string for every missing field), so the two leaf hashes differ (digest
modelled as the code-point sequence of the hashed string). -/
theorem leaf_hash_category_counterexample :
    generateConsentHash (fun s => s.data.map Char.toNat)
        ⟨none, none, 0, none, none⟩ ≠
      claimLeafHashEmptyMissing (fun s => s.data.map Char.toNat)
        ⟨none, none, 0, none, none⟩ := by
  decide

/-- Claim C5 (corrected): leaf hash derivation.  The hash returned by
`addConsentToBatch` via `generateConsentHash` is the 0x-prefixed
lowercase hex of the digest of
`contextText | url | timestampMillis | actionLabel | category`, with the
empty string for a missing context, url or action label — but with the
literal `general`, not the empty string, for a missing category. -/
theorem leaf_hash_derivation_amended (sha : String → List Nat) (c : ConsentData) :
    generateConsentHash sha c = specLeafHash sha c := by
  unfold generateConsentHash specLeafHash
  simp [String.intercalate, String.intercalate.go]

/-- Claim C6 counterexample: with the same leaf in two anchored
batches, `verifyConsent` returns the metadata of the first-anchored
(oldest) batch, while the claimed newest-first search would return the
newer batch. -/
theorem verify_consent_newest_first_counterexample :
    (verifyConsent hashConcat noOnChain twoBatchState "0xaa").batch.map
        BatchSummary.txHash = some "0x01"
    ∧ (claimVerifyConsentNewestFirst hashConcat noOnChain twoBatchState "0xaa").batch.map
        BatchSummary.txHash = some "0x02"
    ∧ verifyConsent hashConcat noOnChain twoBatchState "0xaa" ≠
        claimVerifyConsentNewestFirst hashConcat noOnChain twoBatchState "0xaa" :=
  ⟨by decide, by decide, by decide⟩

/-- Claim C6 (corrected): `verifyConsent` semantics.  The search walks
the anchored batches in anchoring order — oldest first, not newest
first as claimed (see the counterexample).  If no anchored batch
contains the leaf, a leaf present in the pending batch reports pending
rather than not found, and otherwise not found is reported; the first
containing batch (with a valid regenerated proof) yields the anchored
outcome — proof regenerated, verified locally, and the chain adapter
consulted only for non-simulated receipts with a contract address set
(never for simulated ones). -/
theorem verify_consent_search_semantics (hp : String → String → String)
    (oc : String → String → List String → Option Bool) (st : ServiceState)
    (h : String) :
    ((∀ b ∈ st.anchoredBatches, ∀ ce ∈ b.consents, ce.hash ≠ h) →
      ((st.pendingBatch.consents.any fun ce => ce.hash == h) = true →
        verifyConsent hp oc st h =
          ⟨false, true, none, none, none, none,
           "Consent is in pending batch (not yet anchored)"⟩)
      ∧ ((st.pendingBatch.consents.any fun ce => ce.hash == h) = false →
        verifyConsent hp oc st h =
          ⟨false, false, none, none, none, none,
           "Consent not found in any batch"⟩))
    ∧ ∀ (pre : List AnchoredBatch) (b : AnchoredBatch)
        (post : List AnchoredBatch),
        st.anchoredBatches = pre ++ b :: post →
        (∀ b2 ∈ pre, ∀ ce ∈ b2.consents, ce.hash ≠ h) →
        (∃ ce ∈ b.consents, ce.hash = h) →
        (MerkleTree.generateProof strLower b.tree h).valid = true →
        verifyConsent hp oc st h = anchoredOutcome hp oc st.config b h
        ∧ (b.simulated = true →
            (verifyConsent hp oc st h).onChainVerification = none) := by
  constructor
  · intro hnone
    have hloop := verifyConsentLoop_none hp oc st.config h st.anchoredBatches hnone
    constructor
    · intro hpend
      unfold verifyConsent
      rw [hloop]
      simp only [hpend, if_true]
    · intro hpend
      unfold verifyConsent
      rw [hloop]
      simp only [hpend]
      simp only [Bool.false_eq_true, if_false]
  · intro pre b post hsplit hpre hmem hvalid
    have hloop := verifyConsentLoop_first hp oc st.config h pre b post hpre hmem hvalid
    have hres : verifyConsent hp oc st h = anchoredOutcome hp oc st.config b h := by
      unfold verifyConsent
      rw [hsplit, hloop]
    refine ⟨hres, fun hsim => ?_⟩
    rw [hres]
    unfold anchoredOutcome
    simp [hsim]

/-- Witness for C6 at a state whose leaf lives only in the pending
batch: the pending outcome is reported. -/
theorem verify_consent_search_semantics_witness :
    verifyConsent hashConcat noOnChain pendingOnlyState "0xbb" =
      ⟨false, true, none, none, none, none,
       "Consent is in pending batch (not yet anchored)"⟩ :=
  ((verify_consent_search_semantics hashConcat noOnChain pendingOnlyState "0xbb").1
    (by simp [pendingOnlyState])).1 (by decide)

/-- Claim C8 (code bug): the claim says the hash used for tree
combination fails loudly when ethers is unavailable, and the spec
explicitly requires it; the source instead silently substitutes
`sha256Sync`, a 32-bit non-cryptographic string hash.  Evaluated at the
failing input `[1, 2, 3]` with ethers unavailable: a defined 64-digit hex
value is returned (zeros followed by `402`), not a failure. -/
theorem keccak_fallback_silent_substitution :
    (∀ ethersKeccak : List Nat → String,
      keccak256 false ethersKeccak [1, 2, 3] = sha256Sync [1, 2, 3])
    ∧ sha256Sync [1, 2, 3] =
        String.mk (List.replicate 61 '0' ++ ['4', '0', '2']) := by
  constructor
  · intro f
    rfl
  · decide

/-- Claim C9 (confirmed): idempotent empty close.  On an empty pending
batch `anchorPendingBatch` returns `null` and `anchorDailyBatch` returns
the "No consents to anchor" result; the state is returned untouched, so
a second back-to-back call is the same safe no-op. -/
theorem empty_close_is_noop (hp : String → String → String) (spH : PendingBatch → String)
    (adapter : Adapter) (nowMs nowMs2 : Nat) (st : ServiceState)
    (h : st.pendingBatch.consents = []) :
    anchorPendingBatch hp spH adapter nowMs st = (st, none)
    ∧ anchorDailyBatch hp spH adapter nowMs st =
        (st, ⟨false, some "No consents to anchor", none⟩)
    ∧ anchorDailyBatch hp spH adapter nowMs2
        (anchorDailyBatch hp spH adapter nowMs st).1 =
        (st, ⟨false, some "No consents to anchor", none⟩) := by
  have hlen : st.pendingBatch.consents.length = 0 := by rw [h]; rfl
  have e1 : anchorPendingBatch hp spH adapter nowMs st = (st, none) := by
    unfold anchorPendingBatch; rw [if_pos hlen]
  have e2 : anchorDailyBatch hp spH adapter nowMs st =
      (st, ⟨false, some "No consents to anchor", none⟩) := by
    unfold anchorDailyBatch; rw [if_pos hlen]
  refine ⟨e1, e2, ?_⟩
  rw [e2]
  unfold anchorDailyBatch; rw [if_pos hlen]

/-- Witness for C9 at the concrete empty-pending state. -/
theorem empty_close_is_noop_witness :
    anchorPendingBatch hashConcat (fun _ => "") okAdapter 0 emptyState =
      (emptyState, none) :=
  (empty_close_is_noop hashConcat (fun _ => "") okAdapter 0 1 emptyState rfl).1

/-- Claim C10 (confirmed): the commit step never reports failure.  Every
`anchorBatchOnChain` call returns `success = true` — the real-chain path
either succeeds or falls through to the simulated chain, which always
succeeds — and consequently every close of a non-empty pending batch
anchors the batch and clears it. -/
theorem anchor_commit_always_succeeds :
    (∀ (env : ChainEnv) (cfg : Config) (sim : SimChain) (root sp : String)
        (day : Option Nat) (n : Nat),
      (anchorBatchOnChain env cfg sim root sp day n).2.success = true)
    ∧ ∀ (hp : String → String → String) (spH : PendingBatch → String)
        (env : ChainEnv) (nowMs : Nat) (st : ServiceState),
        st.pendingBatch.consents ≠ [] →
        ∃ r, (anchorPendingBatch hp spH (anchorBatchOnChain env st.config)
                nowMs st).2 = some r
          ∧ r.success = true
          ∧ ∃ ab, (anchorPendingBatch hp spH (anchorBatchOnChain env st.config)
                nowMs st).1.anchoredBatches = st.anchoredBatches ++ [ab]
            ∧ (anchorPendingBatch hp spH (anchorBatchOnChain env st.config)
                nowMs st).1.pendingBatch = ⟨[], none⟩ := by
  refine ⟨fun env cfg sim root sp day n =>
    anchorBatchOnChain_success env cfg sim root sp day n, ?_⟩
  intro hp spH env nowMs st hne
  obtain ⟨ab, a1, a2, a3, a4, a5, a6, a7, r, hr1, hr2⟩ :=
    anchorPendingBatch_success_spec hp spH (anchorBatchOnChain env st.config)
      nowMs st hne
      (fun sim r sp d n => anchorBatchOnChain_success env st.config sim r sp d n)
  exact ⟨r, hr1, hr2, ab, a1, a6⟩

/-- Witness for C10 at a one-leaf pending batch with the concrete
adapter environment. -/
theorem anchor_commit_always_succeeds_witness :
    ∃ r, (anchorPendingBatch hashConcat (fun _ => "")
          (anchorBatchOnChain rolloverEnv staleDayState.config) 0 staleDayState).2 =
        some r
      ∧ r.success = true
      ∧ ∃ ab, (anchorPendingBatch hashConcat (fun _ => "")
            (anchorBatchOnChain rolloverEnv staleDayState.config) 0
            staleDayState).1.anchoredBatches = staleDayState.anchoredBatches ++ [ab]
        ∧ (anchorPendingBatch hashConcat (fun _ => "")
            (anchorBatchOnChain rolloverEnv staleDayState.config) 0
            staleDayState).1.pendingBatch = ⟨[], none⟩ :=
  anchor_commit_always_succeeds.2 hashConcat (fun _ => "") rolloverEnv 0 staleDayState
    (by decide)
